import Mathlib

/-!
Verification development for the aws-weather-analytics repository.

The repository ingests hourly weather observations per city into raw JSON
objects under `historical/dt=<date>/<city_id>_<hour>.json`, and an
incremental-transform planner (`get_unprocessed_files_dict` in
src/utils/s3_utils.py) reconciles the raw hierarchy against processed
partition markers `processed/dt=<date>/city=<c>/hour=<h>/` to produce a
work-list of unprocessed files, bounded by `max_days`.

This file shallowly embeds the relevant Python code: Python strings are
`List Char` (wrapped in `String` at API boundaries), fallible S3 listing
calls are `Except Unit` valued fields of an `S3World` record, and the
Python functions become Lean functions over those.
-/

namespace WeatherAnalytics

/-- Decimal digit character for a value below ten. -/
def digitChar (n : Nat) : Char := Char.ofNat (48 + n)

/-- Fuelled decimal rendering of a natural number (most significant first). -/
def natDigitsF : Nat → Nat → List Char
  | 0, _ => []
  | fuel + 1, n =>
    if n < 10 then [digitChar n] else natDigitsF fuel (n / 10) ++ [digitChar (n % 10)]

/-- Decimal rendering of a natural number, e.g. `natDigits 10 = ['1','0']`. -/
def natDigits (n : Nat) : List Char := natDigitsF (n + 1) n

/-- Value of a list of decimal digit characters. -/
def digitsVal (cs : List Char) : Nat := cs.foldl (fun a c => a * 10 + (c.toNat - 48)) 0

/-- Strip leading and trailing whitespace, as Python `str.strip` does before
`int()` conversion. -/
def trimL (cs : List Char) : List Char :=
  ((cs.dropWhile Char.isWhitespace).reverse.dropWhile Char.isWhitespace).reverse

/-- Parse a nonempty all-digit character list, else `none`. -/
def parseDigits (cs : List Char) : Option Nat :=
  if cs ≠ [] ∧ cs.all Char.isDigit then some (digitsVal cs) else none

/-- Model of Python `int(s)` on a string: strips whitespace, allows a single
leading sign, then decimal digits.  (Digit-group underscores and non-ASCII
digits, which Python also accepts, do not occur in this system's keys and are
not modelled.) -/
def pyIntL (cs : List Char) : Option Int :=
  if trimL cs = [] then none
  else if (trimL cs).headD ' ' = '-' then
    (parseDigits ((trimL cs).drop 1)).map (fun n => -(Int.ofNat n))
  else if (trimL cs).headD ' ' = '+' then
    (parseDigits ((trimL cs).drop 1)).map Int.ofNat
  else (parseDigits (trimL cs)).map Int.ofNat

/-- Split a character list on a single separator character; mirrors Python
`str.split(sep)` for a one-character separator: `splitChar '_' "a_b" = ["a","b"]`,
`splitChar '_' "" = [""]`. -/
def splitChar (sep : Char) : List Char → List (List Char)
  | [] => [[]]
  | c :: cs =>
    if c = sep then [] :: splitChar sep cs
    else
      match splitChar sep cs with
      | [] => [[c]]
      | g :: gs => (c :: g) :: gs

/-- Fuelled split on a multi-character separator (left-to-right,
non-overlapping), mirroring Python `str.split(sep)`. -/
def splitSeqF (sep : List Char) : Nat → List Char → List (List Char)
  | _, [] => [[]]
  | 0, cs => [cs]
  | fuel + 1, c :: cs =>
    if sep ≠ [] ∧ sep.isPrefixOf (c :: cs) then
      [] :: splitSeqF sep fuel (List.drop sep.length (c :: cs))
    else
      match splitSeqF sep fuel cs with
      | [] => [[c]]
      | g :: gs => (c :: g) :: gs

/-- Split on a multi-character separator; the fuel is always sufficient. -/
def splitSeq (sep cs : List Char) : List (List Char) := splitSeqF sep cs.length cs

/-- Substring containment, mirroring Python `sub in s`. -/
def containsSub (sep : List Char) : List Char → Bool
  | [] => sep.isEmpty
  | c :: cs => sep.isPrefixOf (c :: cs) || containsSub sep cs

/-- Remove trailing `'/'` characters, mirroring Python `str.rstrip('/')`. -/
def rstripSlash (cs : List Char) : List Char :=
  (cs.reverse.dropWhile (· = '/')).reverse

/-- Join character lists with a separator, mirroring Python `sep.join(parts)`. -/
def joinSep (sep : Char) : List (List Char) → List Char
  | [] => []
  | [x] => x
  | x :: y :: xs => x ++ sep :: joinSep sep (y :: xs)

/-- Boolean suffix test, mirroring Python `str.endswith(sfx)`. -/
def endsWithL (sfx l : List Char) : Bool :=
  decide (sfx.length ≤ l.length ∧ l.drop (l.length - sfx.length) = sfx)

/-- Number of days in a month of a given year, as Python `datetime` uses. -/
def daysInMonth (y m : Nat) : Nat :=
  if m = 2 then (if y % 4 = 0 ∧ (y % 100 ≠ 0 ∨ y % 400 = 0) then 29 else 28)
  else if m = 4 ∨ m = 6 ∨ m = 9 ∨ m = 11 then 30
  else 31

/-- Model of `datetime.strptime(s, '%Y-%m-%d')` succeeding: CPython's strptime
matches `%Y` as exactly four digits and `%m`/`%d` as one or two digits in
range, requires the hyphens literally with no text left over, and the
`datetime` constructor then rejects a day beyond the month's length. -/
def isValidDate (cs : List Char) : Bool :=
  match splitChar '-' cs with
  | [ys, ms, ds] =>
    (ys.length = 4 ∧ ys.all Char.isDigit
      ∧ (ms.length = 1 ∨ ms.length = 2) ∧ ms.all Char.isDigit
      ∧ 1 ≤ digitsVal ms ∧ digitsVal ms ≤ 12
      ∧ (ds.length = 1 ∨ ds.length = 2) ∧ ds.all Char.isDigit
      ∧ 1 ≤ digitsVal ds ∧ digitsVal ds ≤ daysInMonth (digitsVal ys) (digitsVal ms) : Bool)
  | _ => false

/-- Whether a raw key ends in `.json`, as the planner's listing filter checks. -/
def isJsonKey (k : String) : Bool := endsWithL ".json".data k.data

/-- The planner's per-file decode (s3_utils.py lines 162-171): take the last
`/`-component of the key, require the `.json` suffix, strip it, split the rest
on `_`; with at least two parts the city id is the `_`-join of all but the
last part and the hour is Python `int` of the last part.  Any failure
(`ValueError`/`IndexError` in the source) yields `none` (the file is skipped). -/
def decodeFilenameL (filename : List Char) : Option (List Char × Int) :=
  if endsWithL ".json".data filename then
    let baseName := filename.take (filename.length - 5)
    let parts := splitChar '_' baseName
    if 2 ≤ parts.length then
      match pyIntL (parts.getLastD []) with
      | some h => some (joinSep '_' parts.dropLast, h)
      | none => none
    else none
  else none

/-- The planner's decode applied to a full key: `raw_file.split('/')[-1]`
selects the filename, which `decodeFilenameL` then decodes. -/
def decodeKeyL (k : List Char) : Option (List Char × Int) :=
  decodeFilenameL ((splitChar '/' k).getLastD [])

/-- String-level wrapper of `decodeKeyL`. -/
def decodeKey (k : String) : Option (String × Int) :=
  (decodeKeyL k.data).map (fun ch => (String.mk ch.1, ch.2))

/-- Step 1 of the planner (s3_utils.py lines 67-79): from the top-level
common prefixes, keep those containing `dt=`, take the segment after the
first `dt=`, strip trailing slashes, keep only valid calendar dates, and
collect into a set (modelled as a deduplicated list). -/
def collectDates (prefixes : List String) : List String :=
  (prefixes.filterMap (fun p =>
    if containsSub "dt=".data p.data then
      let dateStr := rstripSlash ((splitSeq "dt=".data p.data).getD 1 [])
      if isValidDate dateStr then some (String.mk dateStr) else none
    else none)).dedup

/-- Lexicographic order on character lists by code point, the order Python
uses to compare strings: `lexLe xs ys` is `xs ≤ ys`. -/
def lexLe : List Char → List Char → Bool
  | [], _ => true
  | _ :: _, [] => false
  | a :: as, b :: bs =>
    if a.toNat < b.toNat then true
    else if b.toNat < a.toNat then false
    else lexLe as bs

/-- Strict lexicographic order on character lists by code point. -/
def lexLt : List Char → List Char → Bool
  | _, [] => false
  | [], _ :: _ => true
  | a :: as, b :: bs =>
    if a.toNat < b.toNat then true
    else if b.toNat < a.toNat then false
    else lexLt as bs

/-- String-level strict lexicographic comparison (Python `<` on strings). -/
def strLt (a b : String) : Bool := lexLt a.data b.data

/-- Insert into a descending-sorted list, keeping it descending. -/
def insertDesc (a : String) : List String → List String
  | [] => [a]
  | b :: bs => if lexLe b.data a.data then a :: b :: bs else b :: insertDesc a bs

/-- Python `sorted(dates, reverse=True)`: descending lexicographic order. -/
def sortDesc : List String → List String
  | [] => []
  | a :: as => insertDesc a (sortDesc as)

/-- The S3 listing environment the planner runs against.  Each field models
one kind of boto3 call the planner makes; `Except Unit` results model calls
that may raise.  `rawKeys` is keyed by date string (listing under
`historical/dt=<date>/`), `headProcessedDate` models the
`head_object(Key=f"processed/dt=<date>/")` existence probe, `cityPrefixes`
the city-level common-prefix listing for a date, and `hourPrefixes` the
hour-level common-prefix listing under a given city prefix string. -/
structure S3World where
  topPrefixes : Except Unit (List String)
  rawKeys : String → Except Unit (List String)
  headProcessedDate : String → Except Unit Unit
  cityPrefixes : String → Except Unit (List String)
  hourPrefixes : String → Except Unit (List String)

/-- Decode the hour-level prefixes of one city (s3_utils.py lines 143-152):
prefixes containing `hour=` whose tail parses as a Python int become
`(city_id, hour)` pairs; a `ValueError` skips just that prefix. -/
def hoursOfCity (cityId : List Char) (hourPrefixList : List String) : List (List Char × Int) :=
  hourPrefixList.filterMap (fun hp =>
    if containsSub "hour=".data hp.data then
      match pyIntL (rstripSlash ((splitSeq "hour=".data hp.data).getD 1 [])) with
      | some h => some (cityId, h)
      | none => none
    else none)

/-- Walk the city-level prefixes accumulating processed `(city, hour)` pairs
(s3_utils.py lines 129-152).  An exception while listing one city's hours is
caught by the surrounding bare `except`, so the pairs accumulated so far are
kept and the remaining cities are abandoned. -/
def combosCities (w : S3World) : List String → List (List Char × Int) → List (List Char × Int)
  | [], acc => acc
  | cp :: rest, acc =>
    if containsSub "city=".data cp.data then
      let cityId := rstripSlash ((splitSeq "city=".data cp.data).getD 1 [])
      match w.hourPrefixes cp with
      | .error _ => acc
      | .ok hps => combosCities w rest (acc ++ hoursOfCity cityId hps)
    else combosCities w rest acc

/-- The processed-combination set for a date (s3_utils.py lines 116-156):
probe the processed date prefix with `head_object`, then enumerate
city-level and hour-level prefixes.  The whole block sits in a bare
`try/except: pass`, so any failure (including the probe's 404 when no
processed data exists) leaves the set where it stood — empty if the probe or
the city listing failed. -/
def processedCombos (w : S3World) (d : String) : List (List Char × Int) :=
  match w.headProcessedDate d with
  | .error _ => []
  | .ok _ =>
    match w.cityPrefixes d with
    | .error _ => []
    | .ok cps => combosCities w cps []

/-- Fully-qualified reference for a raw key (s3_utils.py line 173). -/
def refOf (rawBucket k : String) : String := "s3://" ++ rawBucket ++ "/" ++ k

/-- The per-file filtering step (s3_utils.py lines 160-176): decode the key;
on failure skip it, otherwise emit its reference unless the decoded
`(city, hour)` already has a processed counterpart. -/
def keyStep (combos : List (List Char × Int)) (rawBucket k : String) : Option String :=
  match decodeKeyL k.data with
  | some ch => if ch ∈ combos then none else some (refOf rawBucket k)
  | none => none

/-- One date's contribution to the work-list (s3_utils.py lines 96-187):
`none` means the date is skipped without counting toward `max_days` — either
its raw listing raised (outer `except ... continue`), or it has no `.json`
keys, or every decodable key already has a processed counterpart.  Otherwise
`some` of the non-empty list of fully-qualified unprocessed references. -/
def dateWork (w : S3World) (rawBucket d : String) : Option (List String) :=
  match w.rawKeys d with
  | .error _ => none
  | .ok keys =>
    let rawFiles := keys.filter isJsonKey
    if rawFiles = [] then none
    else
      let combos := processedCombos w d
      let unprocessed := rawFiles.filterMap (keyStep combos rawBucket)
      if unprocessed = [] then none else some unprocessed

/-- The planner's main loop over dates sorted newest-first (s3_utils.py
lines 90-187), carrying the count of dates that yielded work and stopping
once it reaches `maxDays`. -/
def planLoop (w : S3World) (rawBucket : String) (maxDays : Nat) :
    List String → Nat → List (String × List String)
  | [], _ => []
  | d :: rest, cnt =>
    if maxDays ≤ cnt then []
    else
      match dateWork w rawBucket d with
      | none => planLoop w rawBucket maxDays rest cnt
      | some u => (d, u) :: planLoop w rawBucket maxDays rest (cnt + 1)

/-- `get_unprocessed_files_dict(raw_bucket, processed_bucket, max_days)`
(s3_utils.py lines 49-194).  A failure of the top-level date-partition
listing propagates (`except ... raise`); otherwise the valid raw dates are
collected, an empty set returns an empty mapping, and the dates are visited
newest-first under the `max_days` cap.  The mapping is an association list
keyed by date in insertion (descending) order. -/
def get_unprocessed_files_dict (w : S3World) (rawBucket : String) (maxDays : Nat) :
    Except Unit (List (String × List String)) :=
  match w.topPrefixes with
  | .error e => .error e
  | .ok prefixes =>
    let allRawDates := collectDates prefixes
    if allRawDates = [] then .ok []
    else .ok (planLoop w rawBucket maxDays (sortDesc allRawDates) 0)

/-- A failure-free S3 environment: concrete listings for everything, with
`headOk` telling whether the processed date marker object exists. -/
structure PureStore where
  topPrefixes : List String
  rawKeys : String → List String
  headOk : String → Bool
  cityPrefixes : String → List String
  hourPrefixes : String → List String

/-- Interpret a failure-free store as an `S3World`; the probe's 404 on an
absent marker is the `.error` of `headProcessedDate`. -/
def PureStore.toWorld (p : PureStore) : S3World where
  topPrefixes := .ok p.topPrefixes
  rawKeys := fun d => .ok (p.rawKeys d)
  headProcessedDate := fun d => if p.headOk d then .ok () else .error ()
  cityPrefixes := fun d => .ok (p.cityPrefixes d)
  hourPrefixes := fun cp => .ok (p.hourPrefixes cp)

/-- The unprocessed references of one date in a failure-free store: the
`.json` keys whose decoded `(city, hour)` is not among the date's processed
combinations, as fully-qualified references. -/
def unprocessedFor (p : PureStore) (rawBucket d : String) : List String :=
  ((p.rawKeys d).filter isJsonKey).filterMap (keyStep (processedCombos p.toWorld d) rawBucket)

/-- The result list of the planner on a failure-free store (the planner
never fails there). -/
def planD (p : PureStore) (rawBucket : String) (maxDays : Nat) : List (String × List String) :=
  match get_unprocessed_files_dict p.toWorld rawBucket maxDays with
  | .ok l => l
  | .error _ => []

/-- The work-list contains the observation unit `(city, date, hour)`: some
entry for that date holds a reference that decodes to that city and hour. -/
def containsUnit (res : List (String × List String)) (d c : String) (h : Int) : Prop :=
  ∃ e ∈ res, e.1 = d ∧ ∃ r ∈ e.2, decodeKey r = some (c, h)

instance (res : List (String × List String)) (d c : String) (h : Int) :
    Decidable (containsUnit res d c h) :=
  List.decidableBEx _ res

/-! Order lemmas for the code-point lexicographic comparison. -/

theorem char_toNat_inj {a b : Char} (h : a.toNat = b.toNat) : a = b := by
  have ha := Char.ofNat_toNat a
  rw [← ha, h, Char.ofNat_toNat]

theorem lexLe_cons (a b : Char) (as bs : List Char) :
    lexLe (a :: as) (b :: bs)
      = if a.toNat < b.toNat then true
        else if b.toNat < a.toNat then false else lexLe as bs := rfl

theorem lexLt_cons (a b : Char) (as bs : List Char) :
    lexLt (a :: as) (b :: bs)
      = if a.toNat < b.toNat then true
        else if b.toNat < a.toNat then false else lexLt as bs := rfl

theorem lexLe_cons_nil (a : Char) (as : List Char) : lexLe (a :: as) [] = false := rfl

theorem lexLt_cons_nil (a : Char) (as : List Char) : lexLt (a :: as) [] = false := rfl

theorem lexLt_nil_nil : lexLt ([] : List Char) [] = false := rfl

theorem lexLe_total : ∀ xs ys : List Char, lexLe xs ys = true ∨ lexLe ys xs = true
  | [], _ => Or.inl rfl
  | _ :: _, [] => Or.inr rfl
  | a :: as, b :: bs => by
    rw [lexLe_cons, lexLe_cons]
    rcases Nat.lt_trichotomy a.toNat b.toNat with h | h | h
    · left; rw [if_pos h]
    · rw [if_neg (h ▸ Nat.lt_irrefl _), if_neg (h ▸ Nat.lt_irrefl _),
        if_neg (h ▸ Nat.lt_irrefl _), if_neg (h ▸ Nat.lt_irrefl _)]
      exact lexLe_total as bs
    · right; rw [if_pos h]

theorem lexLe_trans : ∀ xs ys zs : List Char,
    lexLe xs ys = true → lexLe ys zs = true → lexLe xs zs = true
  | [], _, _, _, _ => rfl
  | _ :: _, [], _, h, _ => by exact absurd h (by rw [lexLe_cons_nil]; simp)
  | _ :: _, _ :: _, [], _, h => by exact absurd h (by rw [lexLe_cons_nil]; simp)
  | a :: as, b :: bs, c :: cs, h₁, h₂ => by
    rw [lexLe_cons] at h₁ h₂ ⊢
    rcases Nat.lt_trichotomy a.toNat b.toNat with hab | hab | hab
    · rw [if_pos hab] at h₁
      rcases Nat.lt_trichotomy b.toNat c.toNat with hbc | hbc | hbc
      · rw [if_pos (Nat.lt_trans hab hbc)]
      · rw [if_pos (hbc ▸ hab)]
      · rw [if_neg (Nat.lt_asymm hbc), if_pos hbc] at h₂; exact absurd h₂ (by simp)
    · have hba : a = b := char_toNat_inj hab
      subst hba
      rw [if_neg (Nat.lt_irrefl _), if_neg (Nat.lt_irrefl _)] at h₁
      rcases Nat.lt_trichotomy a.toNat c.toNat with hac | hac | hac
      · rw [if_pos hac]
      · rw [if_neg (hac ▸ Nat.lt_irrefl _), if_neg (hac ▸ Nat.lt_irrefl _)] at h₂ ⊢
        exact lexLe_trans as bs cs h₁ h₂
      · rw [if_neg (Nat.lt_asymm hac), if_pos hac] at h₂; exact absurd h₂ (by simp)
    · rw [if_neg (Nat.lt_asymm hab), if_pos hab] at h₁; exact absurd h₁ (by simp)

theorem lexLe_antisymm : ∀ xs ys : List Char,
    lexLe xs ys = true → lexLe ys xs = true → xs = ys
  | [], [], _, _ => rfl
  | _ :: _, [], h, _ => by exact absurd h (by rw [lexLe_cons_nil]; simp)
  | [], _ :: _, _, h => by exact absurd h (by rw [lexLe_cons_nil]; simp)
  | a :: as, b :: bs, h₁, h₂ => by
    rw [lexLe_cons] at h₁ h₂
    rcases Nat.lt_trichotomy a.toNat b.toNat with hab | hab | hab
    · rw [if_neg (Nat.lt_asymm hab), if_pos hab] at h₂; exact absurd h₂ (by simp)
    · have hba : a = b := char_toNat_inj hab
      subst hba
      rw [if_neg (Nat.lt_irrefl _), if_neg (Nat.lt_irrefl _)] at h₁ h₂
      exact congrArg (a :: ·) (lexLe_antisymm as bs h₁ h₂)
    · rw [if_neg (Nat.lt_asymm hab), if_pos hab] at h₁; exact absurd h₁ (by simp)

theorem lexLt_of_le_of_ne : ∀ xs ys : List Char,
    lexLe xs ys = true → xs ≠ ys → lexLt xs ys = true
  | [], [], _, hne => absurd rfl hne
  | [], _ :: _, _, _ => rfl
  | _ :: _, [], h, _ => by exact absurd h (by rw [lexLe_cons_nil]; simp)
  | a :: as, b :: bs, h, hne => by
    rw [lexLe_cons] at h
    rw [lexLt_cons]
    rcases Nat.lt_trichotomy a.toNat b.toNat with hab | hab | hab
    · rw [if_pos hab]
    · have hba : a = b := char_toNat_inj hab
      subst hba
      rw [if_neg (Nat.lt_irrefl _), if_neg (Nat.lt_irrefl _)] at h ⊢
      exact lexLt_of_le_of_ne as bs h (fun hc => hne (congrArg (a :: ·) hc))
    · rw [if_neg (Nat.lt_asymm hab), if_pos hab] at h; exact absurd h (by simp)

theorem le_of_lexLt : ∀ xs ys : List Char, lexLt xs ys = true → lexLe xs ys = true
  | [], _, _ => rfl
  | _ :: _, [], h => by exact absurd h (by rw [lexLt_cons_nil]; simp)
  | a :: as, b :: bs, h => by
    rw [lexLt_cons] at h
    rw [lexLe_cons]
    rcases Nat.lt_trichotomy a.toNat b.toNat with hab | hab | hab
    · rw [if_pos hab]
    · have hba : a = b := char_toNat_inj hab
      subst hba
      rw [if_neg (Nat.lt_irrefl _), if_neg (Nat.lt_irrefl _)] at h ⊢
      exact le_of_lexLt as bs h
    · rw [if_neg (Nat.lt_asymm hab), if_pos hab] at h; exact absurd h (by simp)

theorem lexLt_ne : ∀ xs ys : List Char, lexLt xs ys = true → xs ≠ ys
  | [], [], h, _ => by exact absurd h (by rw [lexLt_nil_nil]; simp)
  | _ :: _, [], h, _ => by exact absurd h (by rw [lexLt_cons_nil]; simp)
  | [], _ :: _, _, hne => by exact List.noConfusion hne
  | a :: as, b :: bs, h, hne => by
    rw [lexLt_cons] at h
    rcases List.cons.injEq a as b bs ▸ hne with ⟨hab, habs⟩
    subst hab; subst habs
    rw [if_neg (Nat.lt_irrefl _), if_neg (Nat.lt_irrefl _)] at h
    exact lexLt_ne as as h rfl

/-! Sorting lemmas: `sortDesc` permutes its input and sorts it descending. -/

theorem insertDesc_perm (a : String) (l : List String) :
    (insertDesc a l).Perm (a :: l) := by
  induction l with
  | nil => exact List.Perm.refl _
  | cons b bs ih =>
    simp only [insertDesc]
    by_cases h : lexLe b.data a.data = true
    · simp [h]
    · simp only [h, if_false]
      exact ((ih.cons b).trans (List.Perm.swap a b bs))

theorem sortDesc_perm (l : List String) : (sortDesc l).Perm l := by
  induction l with
  | nil => exact List.Perm.refl _
  | cons a as ih => exact (insertDesc_perm a (sortDesc as)).trans (ih.cons a) |>.trans (List.Perm.refl _)

theorem mem_sortDesc {l : List String} {x : String} : x ∈ sortDesc l ↔ x ∈ l :=
  (sortDesc_perm l).mem_iff

theorem insertDesc_pairwise (a : String) (l : List String)
    (h : l.Pairwise (fun x y => lexLe y.data x.data = true)) :
    (insertDesc a l).Pairwise (fun x y => lexLe y.data x.data = true) := by
  induction l with
  | nil => simp [insertDesc]
  | cons b bs ih =>
    simp only [insertDesc]
    rcases List.pairwise_cons.mp h with ⟨hb, hbs⟩
    by_cases hle : lexLe b.data a.data = true
    · rw [if_pos hle]
      refine List.pairwise_cons.mpr ⟨?_, h⟩
      intro y hy
      rcases hy with _ | hy
      · exact hle
      · exact lexLe_trans _ _ _ (hb y (by assumption)) hle
    · rw [if_neg hle]
      refine List.pairwise_cons.mpr ⟨?_, ih hbs⟩
      intro y hy
      have hmem := (insertDesc_perm a bs).mem_iff.mp hy
      rcases List.mem_cons.mp hmem with hya | hyb
      · subst hya
        rcases lexLe_total b.data y.data with h' | h'
        · exact absurd h' hle
        · exact h'
      · exact hb y hyb

theorem sortDesc_pairwise (l : List String) :
    (sortDesc l).Pairwise (fun x y => lexLe y.data x.data = true) := by
  induction l with
  | nil => simp [sortDesc]
  | cons a as ih => exact insertDesc_pairwise a (sortDesc as) ih

/-! Splitting lemmas. -/

theorem splitChar_ne_nil (sep : Char) (cs : List Char) : splitChar sep cs ≠ [] := by
  cases cs with
  | nil => simp [splitChar]
  | cons c cs =>
    simp only [splitChar]
    by_cases h : c = sep
    · rw [if_pos h]; simp
    · rw [if_neg h]
      cases splitChar sep cs <;> simp

theorem splitChar_append (sep : Char) (xs ys : List Char) :
    splitChar sep (xs ++ sep :: ys) = splitChar sep xs ++ splitChar sep ys := by
  induction xs with
  | nil =>
    simp only [List.nil_append, splitChar, if_pos rfl]
    rfl
  | cons c cs ih =>
    simp only [List.cons_append, splitChar, List.append_eq]
    by_cases h : c = sep
    · rw [if_pos h, if_pos h, ih]
      rw [List.cons_append]
    · rw [if_neg h, if_neg h, ih]
      rcases hcs : splitChar sep cs with _ | ⟨g, gs⟩
      · exact absurd hcs (splitChar_ne_nil sep cs)
      · rfl

theorem splitChar_of_not_mem {sep : Char} {cs : List Char} (h : sep ∉ cs) :
    splitChar sep cs = [cs] := by
  induction cs with
  | nil => rfl
  | cons c cs ih =>
    simp only [splitChar]
    have hc : c ≠ sep := fun he => h (he ▸ List.mem_cons_self c cs)
    rw [if_neg hc, ih (fun hmem => h (List.mem_cons_of_mem c hmem))]

theorem joinSep_splitChar (sep : Char) (cs : List Char) :
    joinSep sep (splitChar sep cs) = cs := by
  induction cs with
  | nil => rfl
  | cons c cs ih =>
    simp only [splitChar]
    by_cases h : c = sep
    · rw [if_pos h]
      rcases hcs : splitChar sep cs with _ | ⟨g, gs⟩
      · exact absurd hcs (splitChar_ne_nil sep cs)
      · rw [← hcs]
        subst h
        show joinSep c ([] :: splitChar c cs) = c :: cs
        rw [hcs]
        show [] ++ c :: joinSep c (g :: gs) = c :: cs
        rw [List.nil_append, ← hcs, ih]
    · rw [if_neg h]
      rcases hcs : splitChar sep cs with _ | ⟨g, gs⟩
      · exact absurd hcs (splitChar_ne_nil sep cs)
      · rw [← ih, hcs]
        cases gs with
        | nil => rfl
        | cons g' gs' => rfl

theorem endsWithL_iff (sfx l : List Char) :
    endsWithL sfx l = true ↔ ∃ A, l = A ++ sfx := by
  unfold endsWithL
  rw [decide_eq_true_iff]
  constructor
  · rintro ⟨hlen, hdrop⟩
    refine ⟨l.take (l.length - sfx.length), ?_⟩
    conv_lhs => rw [← List.take_append_drop (l.length - sfx.length) l]
    rw [hdrop]
  · rintro ⟨A, rfl⟩
    constructor
    · rw [List.length_append]; omega
    · rw [List.length_append, Nat.add_sub_cancel, List.drop_left]

theorem getLastD_append_of_ne_nil {α : Type} (xs : List α) (d : α) :
    ∀ ys : List α, ys ≠ [] → (xs ++ ys).getLastD d = ys.getLastD d := by
  intro ys hys
  cases ys with
  | nil => exact absurd rfl hys
  | cons y ys' =>
    rw [List.getLastD_eq_getLast?, List.getLastD_eq_getLast?, List.getLast?_append_of_ne_nil]
    simp

/-- Prepending any segment ending in the separator does not change the last
component: the planner's filename extraction ignores everything before the
final slash. -/
theorem splitChar_getLast_append (sep : Char) (xs ys : List Char) :
    (splitChar sep (xs ++ sep :: ys)).getLastD [] = (splitChar sep ys).getLastD [] := by
  rw [splitChar_append]
  cases hys : splitChar sep ys with
  | nil => exact absurd hys (splitChar_ne_nil sep ys)
  | cons g gs =>
    rw [← hys]
    exact getLastD_append_of_ne_nil (splitChar sep xs) [] (splitChar sep ys)
      (splitChar_ne_nil sep ys)

/-- Decoding a fully-qualified reference equals decoding the bare key: the
`s3://<bucket>/` prefix ends in a slash, so the filename is unchanged. -/
theorem decodeKey_ref (bucket k : String) :
    decodeKey ("s3://" ++ bucket ++ "/" ++ k) = decodeKey k := by
  unfold decodeKey decodeKeyL
  have hdata : ("s3://" ++ bucket ++ "/" ++ k).data
      = ("s3://".data ++ bucket.data) ++ '/' :: k.data := by
    rw [String.data_append, String.data_append, String.data_append, List.append_assoc]
    rfl
  rw [hdata, splitChar_getLast_append]

/-! Characterisation of the planner on failure-free stores. -/

theorem dateWork_pure (p : PureStore) (b d : String) :
    dateWork p.toWorld b d
      = if unprocessedFor p b d = [] then none else some (unprocessedFor p b d) := by
  have hstep : dateWork p.toWorld b d
      = (if (p.rawKeys d).filter isJsonKey = [] then none
         else if unprocessedFor p b d = [] then none else some (unprocessedFor p b d)) := rfl
  rw [hstep]
  by_cases hrf : (p.rawKeys d).filter isJsonKey = []
  · rw [if_pos hrf]
    have hu : unprocessedFor p b d = [] := by
      unfold unprocessedFor
      rw [hrf]
      rfl
    rw [if_pos hu]
  · rw [if_neg hrf]

/-- The productive-date test the planner's loop effectively applies. -/
def productiveB (p : PureStore) (b : String) (d : String) : Bool :=
  !(unprocessedFor p b d).isEmpty

theorem planLoop_pure (p : PureStore) (b : String) (m : Nat) :
    ∀ (ds : List String) (cnt : Nat),
    planLoop p.toWorld b m ds cnt
      = ((ds.filter (productiveB p b)).take (m - cnt)).map
          (fun d => (d, unprocessedFor p b d))
  | [], cnt => by simp [planLoop]
  | d :: rest, cnt => by
    rw [planLoop]
    by_cases hcnt : m ≤ cnt
    · rw [if_pos hcnt]
      have : m - cnt = 0 := Nat.sub_eq_zero_of_le hcnt
      rw [this]
      simp
    · rw [if_neg hcnt, dateWork_pure]
      by_cases hu : unprocessedFor p b d = []
      · rw [if_pos hu]
        have hprod : productiveB p b d = false := by
          unfold productiveB
          rw [hu]
          rfl
        rw [List.filter_cons_of_neg (by rw [hprod]; simp)]
        exact planLoop_pure p b m rest cnt
      · rw [if_neg hu]
        have hprod : productiveB p b d = true := by
          unfold productiveB
          cases hul : unprocessedFor p b d with
          | nil => exact absurd hul hu
          | cons x xs => rfl
        rw [List.filter_cons_of_pos (by rw [hprod])]
        have htake : m - cnt = (m - (cnt + 1)) + 1 := by omega
        rw [htake, List.take_succ_cons, List.map_cons]
        rw [planLoop_pure p b m rest (cnt + 1)]

/-- The dates the planner selects: the newest `m` dates (descending
lexicographic order) among the valid raw dates that have at least one
unprocessed file. -/
def selectedDates (p : PureStore) (b : String) (m : Nat) : List String :=
  ((sortDesc (collectDates p.topPrefixes)).filter (productiveB p b)).take m

/-- Closed form of the planner on a failure-free store: it returns exactly
the selected dates, each paired with its unprocessed references. -/
theorem plan_pure (p : PureStore) (b : String) (m : Nat) :
    get_unprocessed_files_dict p.toWorld b m
      = .ok ((selectedDates p b m).map (fun d => (d, unprocessedFor p b d))) := by
  unfold get_unprocessed_files_dict selectedDates
  show (if collectDates p.topPrefixes = [] then _ else _) = _
  by_cases hc : collectDates p.topPrefixes = []
  · rw [if_pos hc, hc]
    simp [sortDesc]
  · rw [if_neg hc, planLoop_pure]
    rw [Nat.sub_zero]

theorem planD_eq (p : PureStore) (b : String) (m : Nat) :
    planD p b m = (selectedDates p b m).map (fun d => (d, unprocessedFor p b d)) := by
  unfold planD
  rw [plan_pure]

theorem keyStep_eq_some (combos : List (List Char × Int)) (b k r : String) :
    keyStep combos b k = some r ↔
      ∃ ch, decodeKeyL k.data = some ch ∧ ch ∉ combos ∧ r = refOf b k := by
  unfold keyStep
  cases hch : decodeKeyL k.data with
  | none => simp
  | some ch =>
    by_cases hin : ch ∈ combos
    · simp [hin]
    · simp [hin, eq_comm]

/-- Membership in a date's unprocessed list, unfolded: the reference comes
from a listed `.json` key whose decode is not a processed combination. -/
theorem mem_unprocessedFor (p : PureStore) (b d r : String) :
    r ∈ unprocessedFor p b d ↔
      ∃ k, k ∈ p.rawKeys d ∧ isJsonKey k = true
        ∧ (∃ ch, decodeKeyL k.data = some ch ∧ ch ∉ processedCombos p.toWorld d)
        ∧ r = refOf b k := by
  unfold unprocessedFor
  rw [List.mem_filterMap]
  constructor
  · rintro ⟨k, hk, hf⟩
    rcases List.mem_filter.mp hk with ⟨hmem, hjson⟩
    rcases (keyStep_eq_some _ _ _ _).mp hf with ⟨ch, hch, hin, hr⟩
    exact ⟨k, hmem, hjson, ⟨ch, hch, hin⟩, hr⟩
  · rintro ⟨k, hmem, hjson, ⟨ch, hch, hin⟩, rfl⟩
    exact ⟨k, List.mem_filter.mpr ⟨hmem, hjson⟩,
      (keyStep_eq_some _ _ _ _).mpr ⟨ch, hch, hin, rfl⟩⟩

theorem string_data_inj {a b : String} (h : a.data = b.data) : a = b := by
  cases a; cases b; cases h; rfl

theorem decodeKey_eq_some (k c : String) (h : Int) :
    decodeKey k = some (c, h) ↔ decodeKeyL k.data = some (c.data, h) := by
  unfold decodeKey
  cases hch : decodeKeyL k.data with
  | none => simp
  | some ch =>
    simp only [Option.map_some', Option.some.injEq, Prod.mk.injEq, Prod.ext_iff]
    constructor
    · rintro ⟨hc, hh⟩
      exact ⟨congrArg String.data hc, hh⟩
    · rintro ⟨hc, hh⟩
      refine ⟨?_, hh⟩
      have : String.mk ch.1 = String.mk c.data := congrArg String.mk hc
      exact this.trans rfl

/-- String-level processed pairs of a date. -/
def processedPairs (p : PureStore) (d : String) : List (String × Int) :=
  (processedCombos p.toWorld d).map (fun ch => (String.mk ch.1, ch.2))

theorem mem_processedPairs (p : PureStore) (d c : String) (h : Int) :
    (c, h) ∈ processedPairs p d ↔ (c.data, h) ∈ processedCombos p.toWorld d := by
  unfold processedPairs
  rw [List.mem_map]
  constructor
  · rintro ⟨ch, hin, heq⟩
    rcases Prod.mk.injEq _ _ _ _ ▸ heq with ⟨hc, hh⟩
    have h1 : ch.1 = c.data := congrArg String.data hc
    have h2 : ch = (c.data, h) := Prod.ext h1 hh
    exact h2 ▸ hin
  · intro hin
    exact ⟨(c.data, h), hin, rfl⟩

/-! Claim theorems C1, C2, C9 about the planner. -/

/-- C1 (amended): for every failure-free store, bucket, `max_days`, and unit
`(city, date, hour)` — the planner's work-list contains the unit iff a raw
record (a listed key ending in `.json` decoding to that city and hour)
exists for it, no processed partition marker exists for it, AND the date is
among the `max_days` most recent valid raw dates having unprocessed work;
moreover when no valid raw dates exist the planner returns an empty mapping
as a success, not an error. -/
theorem planner_unit_iff_capped (p : PureStore) (b : String) (m : Nat)
    (d c : String) (h : Int) :
    (containsUnit (planD p b m) d c h ↔
      ((∃ k ∈ p.rawKeys d, isJsonKey k = true ∧ decodeKey k = some (c, h))
        ∧ (c, h) ∉ processedPairs p d
        ∧ d ∈ selectedDates p b m))
    ∧ (collectDates p.topPrefixes = [] →
        get_unprocessed_files_dict p.toWorld b m = Except.ok []) := by
  constructor
  · rw [planD_eq]
    unfold containsUnit
    constructor
    · rintro ⟨e, he, hed, r, hr, hdec⟩
      rcases List.mem_map.mp he with ⟨d', hd', rfl⟩
      rcases hed with rfl
      rcases (mem_unprocessedFor p b d' r).mp hr with ⟨k, hk, hjson, ⟨ch, hch, hnin⟩, rfl⟩
      rw [show refOf b k = "s3://" ++ b ++ "/" ++ k from rfl, decodeKey_ref] at hdec
      have hchd : ch = (c.data, h) := by
        have := (decodeKey_eq_some k c h).mp hdec
        rw [hch] at this
        exact Option.some.injEq _ _ ▸ this
      refine ⟨⟨k, hk, hjson, hdec⟩, ?_, hd'⟩
      intro hmem
      exact hnin (hchd ▸ (mem_processedPairs p d' c h).mp hmem)
    · rintro ⟨⟨k, hk, hjson, hdec⟩, hnin, hdL⟩
      have hchL : decodeKeyL k.data = some (c.data, h) := (decodeKey_eq_some k c h).mp hdec
      have hnin' : (c.data, h) ∉ processedCombos p.toWorld d :=
        fun hm => hnin ((mem_processedPairs p d c h).mpr hm)
      refine ⟨(d, unprocessedFor p b d), List.mem_map.mpr ⟨d, hdL, rfl⟩, rfl,
        refOf b k, (mem_unprocessedFor p b d _).mpr ⟨k, hk, hjson, ⟨_, hchL, hnin'⟩, rfl⟩, ?_⟩
      rw [show refOf b k = "s3://" ++ b ++ "/" ++ k from rfl, decodeKey_ref]
      exact hdec
  · intro hc
    rw [plan_pure]
    unfold selectedDates
    rw [hc]
    simp [sortDesc]

/-- Witness for the amended C1 theorem: on a store with no raw date
partitions at all, the planner returns the empty mapping as a success. -/
theorem planner_unit_iff_capped_witness :
    get_unprocessed_files_dict
      (PureStore.mk [] (fun _ => []) (fun _ => false) (fun _ => []) (fun _ => [])).toWorld
      "raw" 7 = Except.ok [] :=
  (planner_unit_iff_capped
    (PureStore.mk [] (fun _ => []) (fun _ => false) (fun _ => []) (fun _ => []))
    "raw" 7 "2024-01-15" "london" 0).2 (by decide)

/-- A store with two dates, each holding one unprocessed raw file; with
`max_days = 1` the planner must drop the older date even though an
unprocessed raw record exists for it. -/
def twoDayStore : PureStore where
  topPrefixes := ["historical/dt=2024-01-15/", "historical/dt=2024-01-14/"]
  rawKeys := fun d =>
    if d = "2024-01-15" then ["historical/dt=2024-01-15/london_10.json"]
    else if d = "2024-01-14" then ["historical/dt=2024-01-14/paris_09.json"]
    else []
  headOk := fun _ => false
  cityPrefixes := fun _ => []
  hourPrefixes := fun _ => []

/-- Counterexample to C1 as stated: with `max_days = 1`, the unit
`(paris, 2024-01-14, 9)` has a raw record and no processed marker, yet it is
absent from the work-list — the claimed unqualified iff fails because of the
`max_days` cap. -/
theorem planner_unit_iff_counterexample :
    (∃ k ∈ twoDayStore.rawKeys "2024-01-14",
        isJsonKey k = true ∧ decodeKey k = some ("paris", 9))
    ∧ ("paris", 9) ∉ processedPairs twoDayStore "2024-01-14"
    ∧ ¬ containsUnit (planD twoDayStore "raw" 1) "2024-01-14" "paris" 9 := by
  decide

theorem selectedDates_pairwise_gt (p : PureStore) (b : String) (m : Nat) :
    (selectedDates p b m).Pairwise (fun x y => strLt y x = true) := by
  have h1 : (sortDesc (collectDates p.topPrefixes)).Pairwise
      (fun x y => lexLe y.data x.data = true) := sortDesc_pairwise _
  have h2 : (sortDesc (collectDates p.topPrefixes)).Nodup := by
    rw [(sortDesc_perm _).nodup_iff]
    exact List.nodup_dedup _
  have h3 : (sortDesc (collectDates p.topPrefixes)).Pairwise
      (fun x y => strLt y x = true) := by
    refine (h1.and h2).imp ?_
    rintro a c ⟨hle, hne⟩
    exact lexLt_of_le_of_ne c.data a.data hle
      (fun hd => hne (string_data_inj hd).symm)
  exact (h3.filter (productiveB p b)).sublist (List.take_sublist m _)

/-- C2 (confirmed): the planner's mapping has at most `max_days` keys, each
with a non-empty file list, and those keys are exactly the lexicographically
greatest `max_days` dates among the valid raw dates that have at least one
unprocessed unit — the keys equal the `max_days`-prefix of the descending
sort of the productive dates (dates with no unprocessed work are filtered
out before the cap is applied), they are strictly descending, and any
productive date left out is smaller than every key. -/
theorem planner_cap_and_selection (p : PureStore) (b : String) (m : Nat) :
    (planD p b m).length ≤ m
    ∧ (∀ e ∈ planD p b m, e.2 ≠ [])
    ∧ (planD p b m).map Prod.fst
        = ((sortDesc (collectDates p.topPrefixes)).filter (productiveB p b)).take m
    ∧ ((planD p b m).map Prod.fst).Pairwise (fun x y => strLt y x = true)
    ∧ (∀ d, d ∈ collectDates p.topPrefixes → unprocessedFor p b d ≠ [] →
        d ∉ (planD p b m).map Prod.fst →
        ∀ d2 ∈ (planD p b m).map Prod.fst, strLt d d2 = true) := by
  have hkeys : (planD p b m).map Prod.fst = selectedDates p b m := by
    rw [planD_eq, List.map_map]
    exact List.map_id _
  refine ⟨?_, ?_, hkeys, hkeys ▸ selectedDates_pairwise_gt p b m, ?_⟩
  · rw [planD_eq, List.length_map]
    unfold selectedDates
    rw [List.length_take]
    omega
  · intro e he
    rw [planD_eq] at he
    rcases List.mem_map.mp he with ⟨d, hd, rfl⟩
    have hq : productiveB p b d = true :=
      (List.mem_filter.mp ((List.take_subset m _) hd)).2
    unfold productiveB at hq
    cases hul : unprocessedFor p b d with
    | nil => rw [hul] at hq; exact absurd hq (by simp)
    | cons x xs => simp
  · intro d hvalid hprod hnotkey d2 hd2
    rw [hkeys] at hnotkey hd2
    have hq : productiveB p b d = true := by
      unfold productiveB
      cases hul : unprocessedFor p b d with
      | nil => exact absurd hul hprod
      | cons x xs => rfl
    have hdL : d ∈ (sortDesc (collectDates p.topPrefixes)).filter (productiveB p b) :=
      List.mem_filter.mpr ⟨mem_sortDesc.mpr hvalid, hq⟩
    set L := (sortDesc (collectDates p.topPrefixes)).filter (productiveB p b) with hL
    have hsplit : L = L.take m ++ L.drop m := (List.take_append_drop m L).symm
    have hdrop : d ∈ L.drop m := by
      rcases List.mem_append.mp (hsplit ▸ hdL) with htake | hdrop
      · exact absurd htake (by unfold selectedDates at hnotkey; exact hnotkey)
      · exact hdrop
    have hpair : L.Pairwise (fun x y => strLt y x = true) := by
      have h1 : (sortDesc (collectDates p.topPrefixes)).Pairwise
          (fun x y => lexLe y.data x.data = true) := sortDesc_pairwise _
      have h2 : (sortDesc (collectDates p.topPrefixes)).Nodup := by
        rw [(sortDesc_perm _).nodup_iff]
        exact List.nodup_dedup _
      have h3 : (sortDesc (collectDates p.topPrefixes)).Pairwise
          (fun x y => strLt y x = true) := by
        refine (h1.and h2).imp ?_
        rintro a c ⟨hle, hne⟩
        exact lexLt_of_le_of_ne c.data a.data hle
          (fun hd => hne (string_data_inj hd).symm)
      exact h3.filter (productiveB p b)
    have happ := (List.pairwise_append.mp (hsplit ▸ hpair)).2.2
    exact happ d2 (by unfold selectedDates at hd2; exact hd2) d hdrop

/-- A store whose single date carries raw files with out-of-range hours. -/
def oddHourStore : PureStore where
  topPrefixes := ["historical/dt=2024-01-15/"]
  rawKeys := fun d =>
    if d = "2024-01-15" then
      ["historical/dt=2024-01-15/london_-1.json",
       "historical/dt=2024-01-15/paris_99.json"]
    else []
  headOk := fun _ => false
  cityPrefixes := fun _ => []
  hourPrefixes := fun _ => []

/-- A store with three productive dates, used to exercise the cap at
`max_days = 2`. -/
def threeDayStore : PureStore where
  topPrefixes := ["historical/dt=2024-01-15/", "historical/dt=2024-01-14/",
                  "historical/dt=2024-01-13/"]
  rawKeys := fun d =>
    if d = "2024-01-15" then ["historical/dt=2024-01-15/london_10.json"]
    else if d = "2024-01-14" then ["historical/dt=2024-01-14/london_11.json"]
    else if d = "2024-01-13" then ["historical/dt=2024-01-13/london_12.json"]
    else []
  headOk := fun _ => false
  cityPrefixes := fun _ => []
  hourPrefixes := fun _ => []

/-- Witness for the C2 theorem at a concrete store: the cap holds, and the
productive date `2024-01-13` that the cap excluded is smaller than the kept
key `2024-01-15`. -/
theorem planner_cap_and_selection_witness :
    (planD threeDayStore "raw" 2).length ≤ 2
    ∧ strLt "2024-01-13" "2024-01-15" = true :=
  ⟨(planner_cap_and_selection threeDayStore "raw" 2).1,
   (planner_cap_and_selection threeDayStore "raw" 2).2.2.2.2 "2024-01-13"
     (by decide) (by decide) (by decide) "2024-01-15" (by decide)⟩

/-- C9 (confirmed): the planner applies no range check to the decoded hour —
`london_-1.json` decodes to hour `-1` and `paris_99.json` to hour `99`, and
with no processed markers both files are scheduled as work. -/
theorem planner_no_hour_range_check :
    decodeKey "historical/dt=2024-01-15/london_-1.json" = some ("london", -1)
    ∧ decodeKey "historical/dt=2024-01-15/paris_99.json" = some ("paris", 99)
    ∧ planD oddHourStore "raw" 7
        = [("2024-01-15",
            ["s3://raw/historical/dt=2024-01-15/london_-1.json",
             "s3://raw/historical/dt=2024-01-15/paris_99.json"])]
    ∧ containsUnit (planD oddHourStore "raw" 7) "2024-01-15" "london" (-1)
    ∧ containsUnit (planD oddHourStore "raw" 7) "2024-01-15" "paris" 99 := by
  decide

/-! Claim C8: the planner's failure handling. -/

/-- Replace one date's raw listing by a failing call. -/
def setRawError (w : S3World) (d : String) : S3World :=
  { w with rawKeys := fun x => if x = d then .error () else w.rawKeys x }

/-- Replace one date's raw listing by an empty listing. -/
def setRawEmpty (w : S3World) (d : String) : S3World :=
  { w with rawKeys := fun x => if x = d then .ok [] else w.rawKeys x }

/-- The date keys of a planner result (empty when the planner failed). -/
def resultKeys (e : Except Unit (List (String × List String))) : List String :=
  match e with
  | .ok l => l.map Prod.fst
  | .error _ => []

theorem planLoop_congr (w1 w2 : S3World) (b : String) (m : Nat) :
    ∀ (ds : List String) (cnt : Nat),
      (∀ x ∈ ds, dateWork w1 b x = dateWork w2 b x) →
      planLoop w1 b m ds cnt = planLoop w2 b m ds cnt
  | [], _, _ => rfl
  | d :: rest, cnt, h => by
    rw [planLoop, planLoop]
    by_cases hcnt : m ≤ cnt
    · rw [if_pos hcnt, if_pos hcnt]
    · rw [if_neg hcnt, if_neg hcnt, h d (List.mem_cons_self d rest)]
      have hrest := planLoop_congr w1 w2 b m rest
      cases dateWork w2 b d with
      | none => exact hrest cnt (fun x hx => h x (List.mem_cons_of_mem d hx))
      | some u => rw [hrest (cnt + 1) (fun x hx => h x (List.mem_cons_of_mem d hx))]

theorem dateWork_rawError (w : S3World) (b d : String) :
    dateWork (setRawError w d) b d = none := by
  unfold dateWork
  rw [show (setRawError w d).rawKeys d = .error () from by unfold setRawError; simp]

theorem dateWork_rawEmpty (w : S3World) (b d : String) :
    dateWork (setRawEmpty w d) b d = none := by
  unfold dateWork
  rw [show (setRawEmpty w d).rawKeys d = .ok [] from by unfold setRawEmpty; simp]
  simp

theorem mem_planLoop_keys (w : S3World) (b : String) (m : Nat) :
    ∀ (ds : List String) (cnt : Nat) (x : String),
      x ∈ (planLoop w b m ds cnt).map Prod.fst → dateWork w b x ≠ none
  | [], _, _, hx => by exact absurd hx (by simp [planLoop])
  | d :: rest, cnt, x, hx => by
    rw [planLoop] at hx
    by_cases hcnt : m ≤ cnt
    · rw [if_pos hcnt] at hx
      exact absurd hx (by simp)
    · rw [if_neg hcnt] at hx
      cases hdw : dateWork w b d with
      | none =>
        rw [hdw] at hx
        exact mem_planLoop_keys w b m rest cnt x hx
      | some u =>
        rw [hdw] at hx
        simp only [List.map_cons, List.mem_cons] at hx
        rcases hx with hxd | hxs
        · have hxd2 : x = d := by simpa using hxd
          subst hxd2
          rw [hdw]
          simp
        · exact mem_planLoop_keys w b m rest (cnt + 1) x hxs

theorem combosCities_congr (w1 w2 : S3World)
    (h : ∀ cp, w1.hourPrefixes cp = w2.hourPrefixes cp) :
    ∀ (cps : List String) (acc : List (List Char × Int)),
      combosCities w1 cps acc = combosCities w2 cps acc
  | [], _ => rfl
  | cp :: rest, acc => by
    rw [combosCities, combosCities, h cp]
    by_cases hcp : containsSub "city=".data cp.data = true
    · rw [if_pos hcp, if_pos hcp]
      cases w2.hourPrefixes cp with
      | error e => rfl
      | ok hps => exact combosCities_congr w1 w2 h rest _
    · rw [if_neg hcp, if_neg hcp]
      exact combosCities_congr w1 w2 h rest acc

theorem processedCombos_congr (w1 w2 : S3World)
    (hh : ∀ x, w1.headProcessedDate x = w2.headProcessedDate x)
    (hc : ∀ x, w1.cityPrefixes x = w2.cityPrefixes x)
    (hp : ∀ cp, w1.hourPrefixes cp = w2.hourPrefixes cp)
    (d : String) : processedCombos w1 d = processedCombos w2 d := by
  unfold processedCombos
  rw [hh d, hc d]
  cases w2.headProcessedDate d with
  | error e => rfl
  | ok u =>
    cases w2.cityPrefixes d with
    | error e => rfl
    | ok cps => exact combosCities_congr w1 w2 hp cps []

theorem getU_top_ok (w : S3World) (b : String) (m : Nat) (prefixes : List String)
    (h : w.topPrefixes = .ok prefixes) :
    get_unprocessed_files_dict w b m
      = (if collectDates prefixes = [] then .ok []
         else .ok (planLoop w b m (sortDesc (collectDates prefixes)) 0)) := by
  unfold get_unprocessed_files_dict
  rw [h]

theorem getU_top_error (w : S3World) (b : String) (m : Nat)
    (h : w.topPrefixes = .error ()) :
    get_unprocessed_files_dict w b m = .error () := by
  unfold get_unprocessed_files_dict
  rw [h]

/-- C8 (amended): a failure while listing one date's raw objects makes that
date contribute nothing — the planner behaves exactly as if the date had no
files, every other date is reconciled unchanged, and the failed date never
appears among the result's keys; a failure of the top-level date-partition
listing propagates out of `get_unprocessed_files_dict`; but a failure while
probing or listing a date's processed objects is swallowed and treated as
"no processed data yet", so that date's raw files are all scheduled rather
than dropped. -/
theorem planner_failure_policy (w : S3World) (b : String) (m : Nat) (d : String) :
    (w.topPrefixes = Except.error () →
      get_unprocessed_files_dict w b m = Except.error ())
    ∧ get_unprocessed_files_dict (setRawError w d) b m
        = get_unprocessed_files_dict (setRawEmpty w d) b m
    ∧ d ∉ resultKeys (get_unprocessed_files_dict (setRawError w d) b m)
    ∧ (w.headProcessedDate d = Except.error () → processedCombos w d = [])
    ∧ (w.cityPrefixes d = Except.error () → processedCombos w d = []) := by
  refine ⟨?_, ?_, ?_, ?_, ?_⟩
  · intro h
    exact getU_top_error w b m h
  · cases htop2 : w.topPrefixes with
    | error e =>
      cases e
      rw [getU_top_error (setRawError w d) b m htop2,
        getU_top_error (setRawEmpty w d) b m htop2]
    | ok prefixes =>
      rw [getU_top_ok (setRawError w d) b m prefixes htop2,
        getU_top_ok (setRawEmpty w d) b m prefixes htop2]
      by_cases hc : collectDates prefixes = []
      · rw [if_pos hc, if_pos hc]
      · rw [if_neg hc, if_neg hc]
        refine congrArg Except.ok (planLoop_congr _ _ b m _ 0 ?_)
        intro x _
        by_cases hx : x = d
        · subst hx
          rw [dateWork_rawError, dateWork_rawEmpty]
        · have h1 : (setRawError w d).rawKeys x = w.rawKeys x := by
            unfold setRawError; simp [hx]
          have h2 : (setRawEmpty w d).rawKeys x = w.rawKeys x := by
            unfold setRawEmpty; simp [hx]
          have h3 : processedCombos (setRawError w d) x
              = processedCombos (setRawEmpty w d) x :=
            processedCombos_congr (setRawError w d) (setRawEmpty w d)
              (fun _ => rfl) (fun _ => rfl) (fun _ => rfl) x
          unfold dateWork
          rw [h1, h2, h3]
  · cases htop2 : w.topPrefixes with
    | error e =>
      cases e
      rw [getU_top_error (setRawError w d) b m htop2]
      simp [resultKeys]
    | ok prefixes =>
      rw [getU_top_ok (setRawError w d) b m prefixes htop2]
      by_cases hc : collectDates prefixes = []
      · rw [if_pos hc]
        simp [resultKeys]
      · rw [if_neg hc]
        intro hmem
        exact mem_planLoop_keys _ b m _ 0 d (by simpa [resultKeys] using hmem)
          (dateWork_rawError w b d)
  · intro h
    unfold processedCombos
    rw [h]
  · intro h
    unfold processedCombos
    cases w.headProcessedDate d with
    | error e => rfl
    | ok u => rw [h]

/-- A world where the processed city-prefix listing raises for the only
date, while that date's raw listing succeeds and a matching processed
marker would have been found had the listing not failed. -/
def probeFailWorld : S3World where
  topPrefixes := .ok ["historical/dt=2024-01-15/"]
  rawKeys := fun d =>
    if d = "2024-01-15" then .ok ["historical/dt=2024-01-15/london_10.json"]
    else .ok []
  headProcessedDate := fun _ => .ok ()
  cityPrefixes := fun _ => .error ()
  hourPrefixes := fun _ => .ok ["processed/dt=2024-01-15/city=london/hour=10/"]

/-- Counterexample to C8 as stated: when listing the processed objects of
`2024-01-15` fails, the date does not "contribute nothing" — its raw file is
scheduled (the failure is treated as an absence of processed data). -/
theorem planner_failure_policy_counterexample :
    probeFailWorld.cityPrefixes "2024-01-15" = Except.error ()
    ∧ get_unprocessed_files_dict probeFailWorld "raw" 7
        = Except.ok [("2024-01-15",
            ["s3://raw/historical/dt=2024-01-15/london_10.json"])] := by
  exact ⟨rfl, rfl⟩

/-- A world whose top-level raw date-partition listing fails. -/
def topFailWorld : S3World where
  topPrefixes := .error ()
  rawKeys := fun _ => .ok []
  headProcessedDate := fun _ => .ok ()
  cityPrefixes := fun _ => .ok []
  hourPrefixes := fun _ => .ok []

/-- Witness for the amended C8 theorem: the top-level failure propagates,
and a failing processed probe yields the empty combination set. -/
theorem planner_failure_policy_witness :
    get_unprocessed_files_dict topFailWorld "raw" 7 = Except.error ()
    ∧ processedCombos (setRawError probeFailWorld "x") "2024-01-15" = [] :=
  ⟨(planner_failure_policy topFailWorld "raw" 7 "2024-01-15").1 rfl,
   (planner_failure_policy (setRawError probeFailWorld "x") "raw" 7 "2024-01-15").2.2.2.2 rfl⟩

/-! Claim C3: the key codec round-trips. -/

/-- Python `f"{i:02d}"`: optional sign, zero-padding to two characters
counting the sign. -/
def pyFormat02 (i : Int) : List Char :=
  let sign := if i < 0 then ['-'] else []
  let mag := natDigits i.natAbs
  sign ++ List.replicate (2 - (sign.length + mag.length)) '0' ++ mag

/-- `build_s3_key(city_id, target_date, target_hour)` (s3_client.py line 39,
identically s3_utils.py line 43): the raw-key encoder
`historical/dt=<date>/<city_id>_<hour:02d>.json`. -/
def build_s3_key (cityId targetDate : String) (targetHour : Int) : String :=
  "historical/dt=" ++ targetDate ++ "/" ++ cityId ++ "_"
    ++ String.mk (pyFormat02 targetHour) ++ ".json"

theorem pyFormat02_facts : ∀ n : Fin 24,
    (pyFormat02 (n : Int)).all Char.isDigit = true
    ∧ pyIntL (pyFormat02 (n : Int)) = some (n : Int) := by decide

theorem not_mem_of_all_digit {ch : Char} {l : List Char}
    (hl : l.all Char.isDigit = true) (hch : ch.isDigit = false) : ch ∉ l := by
  intro hmem
  rw [List.all_eq_true] at hl
  rw [hl ch hmem] at hch
  exact Bool.noConfusion hch

/-- Decoding the filename `c ++ "_" ++ hh ++ ".json"` recovers `(c, h)`
whenever the hour chunk contains no underscore and parses as `h`. -/
theorem decodeFilename_encode (c hh : List Char) (h : Int)
    (hnu : '_' ∉ hh) (hint : pyIntL hh = some h) :
    decodeFilenameL (c ++ '_' :: (hh ++ ".json".data)) = some (c, h) := by
  have hform : c ++ '_' :: (hh ++ ".json".data) = (c ++ '_' :: hh) ++ ".json".data := by
    rw [List.append_assoc]
    rfl
  rw [hform]
  unfold decodeFilenameL
  rw [(endsWithL_iff _ _).mpr ⟨c ++ '_' :: hh, rfl⟩]
  rw [if_pos rfl]
  have hlen : ((c ++ '_' :: hh) ++ ".json".data).length - 5 = (c ++ '_' :: hh).length := by
    rw [List.length_append]
    rfl
  rw [hlen, List.take_left]
  have hsplit : splitChar '_' (c ++ '_' :: hh) = splitChar '_' c ++ [hh] := by
    rw [splitChar_append, splitChar_of_not_mem hnu]
  simp only [hsplit]
  have hlen2 : 2 ≤ (splitChar '_' c ++ [hh]).length := by
    rw [List.length_append]
    cases hc : splitChar '_' c with
    | nil => exact absurd hc (splitChar_ne_nil '_' c)
    | cons g gs => simp
  rw [if_pos hlen2]
  have hlast : (splitChar '_' c ++ [hh]).getLastD [] = hh := by
    rw [getLastD_append_of_ne_nil _ [] [hh] (by simp)]
    rfl
  rw [hlast, hint]
  have hdrop : (splitChar '_' c ++ [hh]).dropLast = splitChar '_' c := by
    rw [List.dropLast_concat]
  simp only [hdrop, joinSep_splitChar]

/-- C3 (confirmed, under the single condition that the city id contains no
slash): for every city identifier without `/`, every date string, and every
hour in `[0, 23]`, encoding with `build_s3_key` and then decoding the key's
filename by the planner's rule (split off the final underscore-delimited
integer suffix before `.json`) returns exactly the original
`(city_id, hour)` pair. -/
theorem encode_decode_roundtrip (cityId targetDate : String) (hour : Int)
    (hslash : '/' ∉ cityId.data) (h0 : 0 ≤ hour) (h23 : hour ≤ 23) :
    decodeKey (build_s3_key cityId targetDate hour) = some (cityId, hour) := by
  have hfin : ∃ n : Fin 24, (n : Int) = hour :=
    ⟨⟨hour.toNat, by omega⟩, by simp [Int.toNat_of_nonneg h0]⟩
  rcases hfin with ⟨n, rfl⟩
  have hdig := (pyFormat02_facts n).1
  have hint := (pyFormat02_facts n).2
  have hdata : (build_s3_key cityId targetDate (n : Int)).data
      = ("historical/dt=".data ++ targetDate.data)
          ++ '/' :: (cityId.data ++ '_' :: (pyFormat02 (n : Int) ++ ".json".data)) := by
    unfold build_s3_key
    rw [String.data_append, String.data_append, String.data_append,
      String.data_append, String.data_append]
    rw [List.append_assoc, List.append_assoc, List.append_assoc, List.append_assoc]
    rfl
  unfold decodeKey decodeKeyL
  rw [hdata, splitChar_getLast_append]
  have hnos : '/' ∉ cityId.data ++ '_' :: (pyFormat02 (n : Int) ++ ".json".data) := by
    intro hmem
    rcases List.mem_append.mp hmem with hc | hrest
    · exact hslash hc
    · rcases List.mem_cons.mp hrest with heq | htail
      · exact absurd heq (by decide)
      · rcases List.mem_append.mp htail with hh | hj
        · exact absurd hh (not_mem_of_all_digit hdig (by decide))
        · revert hj
          decide
  rw [splitChar_of_not_mem hnos]
  rw [show (([cityId.data ++ '_' :: (pyFormat02 (n : Int) ++ ".json".data)] :
      List (List Char)).getLastD []) = cityId.data ++ '_' :: (pyFormat02 (n : Int)
      ++ ".json".data) from rfl]
  rw [decodeFilename_encode cityId.data (pyFormat02 (n : Int)) (n : Int)
    (not_mem_of_all_digit hdig (by decide)) hint]
  rfl

/-- Witness for the C3 theorem at a concrete unit. -/
theorem encode_decode_roundtrip_witness :
    decodeKey (build_s3_key "new_york" "2024-01-15" 5) = some ("new_york", 5) :=
  encode_decode_roundtrip "new_york" "2024-01-15" 5 (by decide) (by decide) (by decide)

/-! Claim C4: the bulk transform step's path parsing
(process_weather_data.py lines 62-77) versus the planner's decoding rule. -/

/-- The filename component the planner's rule inspects
(`raw_file.split('/')[-1]`). -/
def plannerFilename (path : List Char) : List Char := (splitChar '/' path).getLastD []

/-- The final underscore-delimited token of the filename's base name — the
hour chunk both parsers look at. -/
def hourToken (fn : List Char) : List Char :=
  (splitChar '_' (fn.take (fn.length - 5))).getLastD []

/-- Semantics of `regexp_extract(input_file, r"/([^/]+\.json)$", 1)`: the
capture must run to the end of the string and may not contain `/`, so a
match exists precisely when the path contains a slash and its final
component has at least one character before a terminal `.json`; Spark's
`regexp_extract` returns the empty string when there is no match. -/
def sparkFilenameL (path : List Char) : List Char :=
  if containsSub ['/'] path = true then
    let t := (splitChar '/' path).getLastD []
    if endsWithL ".json".data t = true ∧ 6 ≤ t.length then t else []
  else []

/-- Semantics of `regexp_extract(filename, r"^(.+)_\d+\.json$", 1)`: the
digits run after the underscore contains no underscore, so the only possible
split point is the last underscore; the greedy `(.+)` capture is everything
before it and must be non-empty, the digit run must be non-empty.  Empty
string on no match. -/
def sparkCityL (fn : List Char) : List Char :=
  if endsWithL ".json".data fn = true then
    let base := fn.take (fn.length - 5)
    let parts := splitChar '_' base
    if 2 ≤ parts.length then
      let dpart := parts.getLastD []
      let cpart := joinSep '_' parts.dropLast
      if dpart ≠ [] ∧ dpart.all Char.isDigit = true ∧ cpart ≠ [] then cpart else []
    else []
  else []

/-- Semantics of `regexp_extract(filename, r"_(\d+)\.json$", 1)`: the
captured digit run before the terminal `.json`, empty on no match (here the
preceding text may be empty). -/
def sparkHourCapture (fn : List Char) : List Char :=
  if endsWithL ".json".data fn = true then
    let base := fn.take (fn.length - 5)
    let parts := splitChar '_' base
    if 2 ≤ parts.length then
      let dpart := parts.getLastD []
      if dpart ≠ [] ∧ dpart.all Char.isDigit = true then dpart else []
    else []
  else []

/-- Spark's `.cast("int")` on a string (non-ANSI mode): trims, parses an
optionally signed decimal, and yields null on malformed input or 32-bit
overflow. -/
def sparkCastInt (cs : List Char) : Option Int :=
  match pyIntL cs with
  | some v => if -2147483648 ≤ v ∧ v ≤ 2147483647 then some v else none
  | none => none

/-- The `city_id` column the bulk transform derives from an object path. -/
def bulk_city_id (path : List Char) : List Char := sparkCityL (sparkFilenameL path)

/-- The `hour` column the bulk transform derives from an object path. -/
def bulk_hour (path : List Char) : Option Int :=
  sparkCastInt (sparkHourCapture (sparkFilenameL path))

/-- Unfolded form of `decodeFilenameL` without `let` binders. -/
theorem decodeFilenameL_eq (fn : List Char) :
    decodeFilenameL fn
      = if endsWithL ".json".data fn = true then
          (if 2 ≤ (splitChar '_' (fn.take (fn.length - 5))).length then
            (match pyIntL (hourToken fn) with
             | some h => some (joinSep '_' (splitChar '_' (fn.take (fn.length - 5))).dropLast, h)
             | none => none)
          else none)
        else none := rfl

/-- Inversion of a successful planner decode. -/
theorem decodeFilenameL_inv (fn cd : List Char) (h : Int)
    (hd : decodeFilenameL fn = some (cd, h)) :
    endsWithL ".json".data fn = true
    ∧ 2 ≤ (splitChar '_' (fn.take (fn.length - 5))).length
    ∧ pyIntL (hourToken fn) = some h
    ∧ cd = joinSep '_' (splitChar '_' (fn.take (fn.length - 5))).dropLast := by
  rw [decodeFilenameL_eq] at hd
  by_cases h1 : endsWithL ".json".data fn = true
  · rw [if_pos h1] at hd
    by_cases h2 : 2 ≤ (splitChar '_' (fn.take (fn.length - 5))).length
    · rw [if_pos h2] at hd
      cases hint : pyIntL (hourToken fn) with
      | none => rw [hint] at hd; exact absurd hd (by simp)
      | some h2i =>
        rw [hint] at hd
        simp only [Option.some.injEq, Prod.mk.injEq] at hd
        exact ⟨h1, h2, congrArg some hd.2, hd.1.symm⟩
    · rw [if_neg h2] at hd
      exact absurd hd (by simp)
  · rw [if_neg h1] at hd
    exact absurd hd (by simp)

theorem containsSub_singleton (ch : Char) (cs : List Char) :
    containsSub [ch] cs = true ↔ ch ∈ cs := by
  induction cs with
  | nil => simp [containsSub]
  | cons c cs ih =>
    rw [containsSub]
    rw [Bool.or_eq_true]
    constructor
    · rintro (hpre | hrec)
      · rcases List.isPrefixOf_iff_prefix.mp hpre with ⟨t, ht⟩
        have ht2 : ch :: t = c :: cs := ht
        injection ht2 with h1 h2
        exact List.mem_cons.mpr (Or.inl h1)
      · exact List.mem_cons_of_mem c (ih.mp hrec)
    · intro hmem
      rcases List.mem_cons.mp hmem with rfl | hmem2
      · left
        exact List.isPrefixOf_iff_prefix.mpr ⟨cs, rfl⟩
      · right
        exact ih.mpr hmem2

theorem digit_not_ws {c : Char} (h : c.isDigit = true) : c.isWhitespace = false := by
  by_contra hw
  have hw2 : c.isWhitespace = true := by
    cases hws : c.isWhitespace
    · exact absurd hws hw
    · rfl
  unfold Char.isWhitespace at hw2
  rw [Bool.or_eq_true, Bool.or_eq_true, Bool.or_eq_true] at hw2
  rcases hw2 with ((h1 | h2) | h3) | h4
  · rw [of_decide_eq_true h1] at h; exact absurd h (by decide)
  · rw [of_decide_eq_true h2] at h; exact absurd h (by decide)
  · rw [of_decide_eq_true h3] at h; exact absurd h (by decide)
  · rw [of_decide_eq_true h4] at h; exact absurd h (by decide)

theorem dropWhile_eq_self_of_all_false {p : Char → Bool} {l : List Char}
    (h : ∀ x ∈ l, p x = false) : l.dropWhile p = l := by
  cases l with
  | nil => rfl
  | cons c cs =>
    rw [List.dropWhile_cons, h c (List.mem_cons_self c cs)]
    simp

theorem trimL_digits {cs : List Char} (h : cs.all Char.isDigit = true) :
    trimL cs = cs := by
  have hfalse : ∀ x ∈ cs, x.isWhitespace = false := by
    intro x hx
    exact digit_not_ws (List.all_eq_true.mp h x hx)
  unfold trimL
  rw [dropWhile_eq_self_of_all_false hfalse,
    dropWhile_eq_self_of_all_false (fun x hx => hfalse x (List.mem_reverse.mp hx)),
    List.reverse_reverse]

theorem pyIntL_digits {cs : List Char} (hd : cs.all Char.isDigit = true)
    {v : Int} (h : pyIntL cs = some v) : 0 ≤ v ∧ v = (digitsVal cs : Int) := by
  cases cs with
  | nil =>
    rw [show pyIntL ([] : List Char) = none from rfl] at h
    exact Option.noConfusion h
  | cons c rest =>
    have hcd : c.isDigit = true := List.all_eq_true.mp hd c (List.mem_cons_self c rest)
    have hcm : c ≠ '-' := by intro he; rw [he] at hcd; exact absurd hcd (by decide)
    have hcp : c ≠ '+' := by intro he; rw [he] at hcd; exact absurd hcd (by decide)
    unfold pyIntL at h
    rw [trimL_digits hd] at h
    simp only [List.headD_cons] at h
    rw [if_neg (List.cons_ne_nil c rest), if_neg hcm, if_neg hcp] at h
    unfold parseDigits at h
    rw [if_pos ⟨List.cons_ne_nil c rest, hd⟩] at h
    rw [show Option.map Int.ofNat (some (digitsVal (c :: rest)))
      = some (Int.ofNat (digitsVal (c :: rest))) from rfl] at h
    have hv := Option.some.injEq _ _ ▸ h
    subst hv
    exact ⟨Int.ofNat_nonneg _, rfl⟩

/-- C4 (amended): whenever the planner's decoding rule succeeds on a path
that contains a slash AND the hour chunk is a pure digit run whose value
fits in 32 bits, the bulk transform's regex derivation produces exactly the
same `(city_id, hour)` pair.  (Without the extra conditions the two differ,
e.g. on a signed hour chunk — see the counterexample.) -/
theorem bulk_matches_planner (path c : String) (h : Int)
    (hdec : decodeKey path = some (c, h))
    (hslash : '/' ∈ path.data)
    (hdigits : (hourToken (plannerFilename path.data)).all Char.isDigit = true)
    (hrange : h ≤ 2147483647) :
    bulk_city_id path.data = c.data ∧ bulk_hour path.data = some h := by
  have hdecL : decodeKeyL path.data = some (c.data, h) := (decodeKey_eq_some path c h).mp hdec
  have hdecF : decodeFilenameL (plannerFilename path.data) = some (c.data, h) := hdecL
  rcases decodeFilenameL_inv _ _ _ hdecF with ⟨hjson, hparts, hint, hcd⟩
  set fn := plannerFilename path.data with hfn
  have hbase_ne : fn.take (fn.length - 5) ≠ [] := by
    intro hb
    rw [hb] at hparts
    exact absurd hparts (by decide)
  have hfn_len : 6 ≤ fn.length := by
    rcases (endsWithL_iff _ _).mp hjson with ⟨A, hA⟩
    have hAne : A ≠ [] := by
      intro hA0
      rw [hA0] at hA
      apply hbase_ne
      rw [hA]
      rfl
    have hj5 : (".json".data).length = 5 := rfl
    rw [hA, List.length_append, hj5]
    cases A with
    | nil => exact absurd rfl hAne
    | cons a as =>
      simp only [List.length_cons]
      omega
  have hsf : sparkFilenameL path.data = fn := by
    unfold sparkFilenameL
    rw [if_pos ((containsSub_singleton '/' path.data).mpr hslash)]
    simp only []
    rw [if_pos ⟨hjson, hfn_len⟩]
    exact hfn.symm
  have hdne : hourToken fn ≠ [] := by
    intro h0
    rw [h0] at hint
    rw [show pyIntL ([] : List Char) = none from rfl] at hint
    exact Option.noConfusion hint
  have hdne2 : (splitChar '_' (fn.take (fn.length - 5))).getLastD [] ≠ [] := hdne
  have hdig2 : ((splitChar '_' (fn.take (fn.length - 5))).getLastD []).all
      Char.isDigit = true := hdigits
  have hint2 : pyIntL ((splitChar '_' (fn.take (fn.length - 5))).getLastD [])
      = some h := hint
  constructor
  · unfold bulk_city_id
    rw [hsf]
    unfold sparkCityL
    rw [if_pos hjson]
    simp only []
    rw [if_pos hparts]
    by_cases hcne : joinSep '_' (splitChar '_' (fn.take (fn.length - 5))).dropLast ≠ []
    · rw [if_pos ⟨hdne2, hdig2, hcne⟩]
      exact hcd.symm
    · rw [if_neg (by
        intro hcontra
        exact hcne hcontra.2.2)]
      rw [hcd]
      rw [not_ne_iff] at hcne
      exact hcne.symm
  · unfold bulk_hour
    rw [hsf]
    unfold sparkHourCapture
    rw [if_pos hjson]
    simp only []
    rw [if_pos hparts, if_pos ⟨hdne2, hdig2⟩]
    unfold sparkCastInt
    rw [hint2]
    rcases pyIntL_digits hdigits hint with ⟨hnonneg, _⟩
    show (if -2147483648 ≤ h ∧ h ≤ 2147483647 then some h else none) = some h
    rw [if_pos ⟨by omega, hrange⟩]

/-- Witness for the amended C4 theorem at a concrete in-range path. -/
theorem bulk_matches_planner_witness :
    bulk_city_id "historical/dt=2024-01-15/new_york_05.json".data = "new_york".data
    ∧ bulk_hour "historical/dt=2024-01-15/new_york_05.json".data = some 5 :=
  bulk_matches_planner "historical/dt=2024-01-15/new_york_05.json" "new_york" 5
    (by decide) (by decide) (by decide) (by decide)

/-- Counterexample to C4 as stated: on `london_-1.json` the planner's rule
succeeds with `(london, -1)` (Python `int` accepts the sign), but the
transform's regexes require pure digits, so its derivation yields an empty
city and a null hour — the two decodings disagree. -/
theorem bulk_vs_planner_counterexample :
    decodeKey "historical/dt=2024-01-15/london_-1.json" = some ("london", -1)
    ∧ ¬ (bulk_city_id "historical/dt=2024-01-15/london_-1.json".data = "london".data
         ∧ bulk_hour "historical/dt=2024-01-15/london_-1.json".data = some (-1))
    ∧ bulk_city_id "historical/dt=2024-01-15/london_-1.json".data = []
    ∧ bulk_hour "historical/dt=2024-01-15/london_-1.json".data = none := by
  decide

/-! The ingestion Lambda (src/extract/ingest_weather_data.py): event values,
`parse_event`, `validate_hour`, and `lambda_handler`. -/

/-- The JSON-like values a Lambda event can hold. -/
inductive PyVal where
  | none : PyVal
  | int : Int → PyVal
  | str : String → PyVal
  | list : List PyVal → PyVal
  | dict : List (String × PyVal) → PyVal

/-- Python truthiness of an event value (`not event` at
ingest_weather_data.py line 87; the separate `event == {}` check is
subsumed, an empty dict already being falsy). -/
def pyFalsy : PyVal → Bool
  | .none => true
  | .int n => n = 0
  | .str s => s.data.isEmpty
  | .list xs => xs.isEmpty
  | .dict es => es.isEmpty

/-- Dictionary lookup, modelling `'k' in d` / `d['k']`. -/
def dictFind (es : List (String × PyVal)) (k : String) : Option PyVal :=
  (es.find? (fun e => e.1 == k)).map Prod.snd

/-- Python `int(x)` on an event value: ints pass through, strings are
parsed (`ValueError` on failure), anything else is a `TypeError`. -/
def pyToInt : PyVal → Except String Int
  | .int n => .ok n
  | .str s =>
    match pyIntL s.data with
    | some n => .ok n
    | Option.none => .error "ValueError"
  | _ => .error "TypeError"

/-- `validate_hour(hour)` (ingest_weather_data.py lines 117-125).  The
in-range `ValueError` raised inside the `try` at line 122 is caught by the
`except (ValueError, TypeError)` at line 124, so every failure surfaces as
the single message of line 125. -/
def validate_hour (v : PyVal) : Except String Int :=
  match pyToInt v with
  | .ok n =>
    if n < 0 ∨ 23 < n then .error "Hour must be a valid integer between 0 and 23"
    else .ok n
  | .error _ => .error "Hour must be a valid integer between 0 and 23"

/-- The per-job loop of `parse_event` for the jobs-list shape
(ingest_weather_data.py lines 94-106): each entry must be a dict holding
both keys, hours are validated, the first failure aborts the parse. -/
def parseJobs : List PyVal → Except String (List (PyVal × Int))
  | [] => .ok []
  | .dict es :: rest =>
    match dictFind es "date", dictFind es "hour" with
    | some dv, some hv =>
      match validate_hour hv with
      | .ok h =>
        match parseJobs rest with
        | .ok tl => .ok ((dv, h) :: tl)
        | .error e => .error e
      | .error e => .error e
    | _, _ => .error "Each job must contain both 'date' and 'hour'"
  | _ :: _ => .error "Each job must be a dictionary with 'date' and 'hour'"

/-- Civil date from days since 1970-01-01 (proleptic Gregorian), the
computation `datetime` performs when formatting a date. -/
def civilFromDays (days : Nat) : Nat × Nat × Nat :=
  let z := days + 719468
  let era := z / 146097
  let doe := z % 146097
  let yoe := (doe - doe / 1460 + doe / 36524 - doe / 146096) / 365
  let y := yoe + era * 400
  let doy := doe - (365 * yoe + yoe / 4 - yoe / 100)
  let mp := (5 * doy + 2) / 153
  let d := doy - (153 * mp + 2) / 5 + 1
  let m := if mp < 10 then mp + 3 else mp - 9
  (if m ≤ 2 then y + 1 else y, m, d)

/-- Left-pad with zeros to a given width. -/
def pad0 (w : Nat) (cs : List Char) : List Char :=
  List.replicate (w - cs.length) '0' ++ cs

/-- `now.strftime('%Y-%m-%d')` for a day count. -/
def fmtDate (days : Nat) : String :=
  match civilFromDays days with
  | (y, m, d) =>
    String.mk (pad0 4 (natDigits y) ++ '-' :: (pad0 2 (natDigits m)
      ++ '-' :: pad0 2 (natDigits d)))

/-- The date of `datetime.now(timezone.utc) + timedelta(hours=5, minutes=30)`
(ingest_weather_data.py line 83), with the current UTC time given in minutes
since the epoch. -/
def istDate (utcMinutes : Nat) : String := fmtDate ((utcMinutes + 330) / 1440)

/-- The `.hour` of the same offset-shifted timestamp. -/
def istHour (utcMinutes : Nat) : Nat := ((utcMinutes + 330) / 60) % 24

/-- `parse_event(event)` (ingest_weather_data.py lines 81-115).  A falsy
event yields one job at the +05:30-shifted current date and hour; a `jobs`
key holding a list is parsed entry-wise; otherwise a single explicit
`{date, hour}` job; anything else is a `ValueError`.  (A truthy non-dict
event, which the Python would mishandle in `'jobs' in event`, is modelled
as the same invalid-format error.) -/
def parse_event (event : PyVal) (utcMinutes : Nat) : Except String (List (PyVal × Int)) :=
  if pyFalsy event then
    .ok [(.str (istDate utcMinutes), (istHour utcMinutes : Int))]
  else
    match event with
    | .dict es =>
      match dictFind es "jobs" with
      | some (.list js) => parseJobs js
      | _ =>
        match dictFind es "date", dictFind es "hour" with
        | some dv, some hv => (validate_hour hv).map (fun h => [(dv, h)])
        | _, _ => .error "Invalid event format. Use \x7b'date': '...', 'hour': ...\x7d or \x7b'jobs': [...]\x7d"
    | _ => .error "Invalid event format. Use \x7b'date': '...', 'hour': ...\x7d or \x7b'jobs': [...]\x7d"

/-- The configuration fields the handler uses (config.py): the city list
and `MAX_BACKFILL_EVENTS`. -/
structure Config where
  cities : List String
  maxBackfillEvents : Nat

/-- What an invocation returns and did: the response envelope plus the
observable trace of the run (jobs executed after truncation, `process_city`
attempts, whether the truncation warning fired). -/
structure HandlerResult where
  statusCode : Nat
  body : String
  jobsRun : List (PyVal × Int)
  attempts : List (String × PyVal × Int)
  warned : Bool

/-- Minimal `json.dumps` for the response body strings: wrap in quotes,
escaping backslashes and quotes (no other escapes occur in these bodies). -/
def pyJsonDumps (s : String) : String :=
  String.mk ('"' :: (s.data.flatMap (fun c => if c = '"' ∨ c = '\\' then ['\\', c] else [c])) ++ ['"'])

/-- The `(city, date, hour)` calls the per-job, per-city loop makes
(ingest_weather_data.py lines 55-64), in order. -/
def attemptsOf (cfg : Config) (jobs : List (PyVal × Int)) : List (String × PyVal × Int) :=
  jobs.flatMap (fun job => cfg.cities.map (fun city => (city, job.1, job.2)))

/-- `total_success`: every attempt whose `process_city` call succeeded. -/
def successCount (outcome : String → PyVal → Int → Bool)
    (attempts : List (String × PyVal × Int)) : Nat :=
  attempts.countP (fun a => outcome a.1 a.2.1 a.2.2)

/-- `lambda_handler(event, context)` (ingest_weather_data.py lines 14-79).
`outcome` models the external effect of `process_city` (fetch + write) per
city and job; a per-city failure is only counted, never propagated.  A
`parse_event` failure is caught by the top-level `except` and produces the
500 envelope with no city work attempted. -/
def lambda_handler (cfg : Config) (outcome : String → PyVal → Int → Bool)
    (event : PyVal) (utcMinutes : Nat) : HandlerResult :=
  match parse_event event utcMinutes with
  | .error e =>
    { statusCode := 500, body := pyJsonDumps ("Backfill failed: " ++ e),
      jobsRun := [], attempts := [], warned := false }
  | .ok jobs0 =>
    let jobs := jobs0.take cfg.maxBackfillEvents
    let attempts := attemptsOf cfg jobs
    { statusCode := 200,
      body := pyJsonDumps ("Backfill completed. Total: "
        ++ String.mk (natDigits (successCount outcome attempts)) ++ "/"
        ++ String.mk (natDigits (jobs.length * cfg.cities.length))
        ++ " successful city-hour combinations"),
      jobsRun := jobs,
      attempts := attempts,
      warned := decide (cfg.maxBackfillEvents < jobs0.length) }

theorem lambda_handler_ok (cfg : Config) (outcome : String → PyVal → Int → Bool)
    (event : PyVal) (t : Nat) (jobs0 : List (PyVal × Int))
    (hp : parse_event event t = .ok jobs0) :
    lambda_handler cfg outcome event t
      = { statusCode := 200,
          body := pyJsonDumps ("Backfill completed. Total: "
            ++ String.mk (natDigits (successCount outcome
                (attemptsOf cfg (jobs0.take cfg.maxBackfillEvents)))) ++ "/"
            ++ String.mk (natDigits ((jobs0.take cfg.maxBackfillEvents).length
                * cfg.cities.length))
            ++ " successful city-hour combinations"),
          jobsRun := jobs0.take cfg.maxBackfillEvents,
          attempts := attemptsOf cfg (jobs0.take cfg.maxBackfillEvents),
          warned := decide (cfg.maxBackfillEvents < jobs0.length) } := by
  unfold lambda_handler
  rw [hp]

theorem lambda_handler_error (cfg : Config) (outcome : String → PyVal → Int → Bool)
    (event : PyVal) (t : Nat) (e : String)
    (hp : parse_event event t = .error e) :
    lambda_handler cfg outcome event t
      = { statusCode := 500, body := pyJsonDumps ("Backfill failed: " ++ e),
          jobsRun := [], attempts := [], warned := false } := by
  unfold lambda_handler
  rw [hp]

/-! Claim C5: event parsing — scheduled default and truncation. -/

/-- A jobs-list event with `n` entries, distinct dates, hours `i % 24`. -/
def jobsEvent (n : Nat) : PyVal :=
  PyVal.dict [("jobs", PyVal.list ((List.range n).map (fun i =>
    PyVal.dict [("date", .str (String.mk (natDigits i))), ("hour", .int (i % 24))])))]

/-- The jobs the first `n` entries of such an event parse to. -/
def expectedJobs (n : Nat) : List (PyVal × Int) :=
  (List.range n).map (fun i => (PyVal.str (String.mk (natDigits i)), ((i % 24 : Nat) : Int)))

/-- A concrete configuration with `max_backfill_events = 24`. -/
def cfg24 : Config := { cities := ["london"], maxBackfillEvents := 24 }

/-- C5 (confirmed): the empty event `{}` parses, at every current time, to
exactly one job carrying the current date and the current hour in the fixed
+05:30 offset; and a 30-entry jobs event under `max_backfill_events = 24`
parses to all 30 jobs, which the handler truncates to exactly the first 24
in their original order, recording the truncation warning and returning the
success envelope rather than an error. -/
theorem event_parsing_policy :
    (∀ t : Nat, parse_event (PyVal.dict []) t
      = .ok [(.str (istDate t), (istHour t : Int))])
    ∧ (∀ (t : Nat) (outcome : String → PyVal → Int → Bool),
        parse_event (jobsEvent 30) t = .ok (expectedJobs 30)
        ∧ (lambda_handler cfg24 outcome (jobsEvent 30) t).jobsRun = expectedJobs 24
        ∧ (lambda_handler cfg24 outcome (jobsEvent 30) t).warned = true
        ∧ (lambda_handler cfg24 outcome (jobsEvent 30) t).statusCode = 200) := by
  constructor
  · intro t
    rfl
  · intro t outcome
    have hp : parse_event (jobsEvent 30) t = .ok (expectedJobs 30) := rfl
    refine ⟨hp, ?_, ?_, ?_⟩
    · rw [lambda_handler_ok cfg24 outcome (jobsEvent 30) t (expectedJobs 30) hp]
      rfl
    · rw [lambda_handler_ok cfg24 outcome (jobsEvent 30) t (expectedJobs 30) hp]
      rfl
    · rw [lambda_handler_ok cfg24 outcome (jobsEvent 30) t (expectedJobs 30) hp]

/-! Claim C6: hour validation and its fatality. -/

/-- C6 (confirmed): `validate_hour` accepts exactly the inputs whose Python
`int` conversion lands in `[0, 23]`, returning that integer (so 0 and 23
pass); it rejects `-1`, `24`, and `"abc"`; and an out-of-range hour in the
event makes the whole invocation fail with the 500 envelope before any
per-city work is attempted. -/
theorem hour_validation :
    (∀ (v : PyVal) (n : Int),
      validate_hour v = .ok n ↔ (pyToInt v = .ok n ∧ 0 ≤ n ∧ n ≤ 23))
    ∧ validate_hour (.int (-1)) = .error "Hour must be a valid integer between 0 and 23"
    ∧ validate_hour (.int 24) = .error "Hour must be a valid integer between 0 and 23"
    ∧ validate_hour (.str "abc") = .error "Hour must be a valid integer between 0 and 23"
    ∧ validate_hour (.int 0) = .ok 0
    ∧ validate_hour (.int 23) = .ok 23
    ∧ (∀ (cfg : Config) (outcome : String → PyVal → Int → Bool) (t : Nat),
        (lambda_handler cfg outcome
          (PyVal.dict [("date", .str "2024-01-15"), ("hour", .int 24)]) t).statusCode = 500
        ∧ (lambda_handler cfg outcome
          (PyVal.dict [("date", .str "2024-01-15"), ("hour", .int 24)]) t).attempts = []) := by
  refine ⟨?_, rfl, rfl, rfl, rfl, rfl, ?_⟩
  · intro v n
    constructor
    · intro h
      cases hpt : pyToInt v with
      | error e =>
        have hred : validate_hour v
            = .error "Hour must be a valid integer between 0 and 23" := by
          unfold validate_hour
          rw [hpt]
        rw [hred] at h
        exact absurd h (by simp)
      | ok m =>
        have hred : validate_hour v
            = if m < 0 ∨ 23 < m then
                .error "Hour must be a valid integer between 0 and 23"
              else .ok m := by
          unfold validate_hour
          rw [hpt]
        rw [hred] at h
        by_cases hr : m < 0 ∨ 23 < m
        · rw [if_pos hr] at h
          exact absurd h (by simp)
        · rw [if_neg hr] at h
          have hmn : m = n := by simpa using h
          subst hmn
          exact ⟨rfl, by omega, by omega⟩
    · rintro ⟨h1, h2, h3⟩
      have hred : validate_hour v
          = if n < 0 ∨ 23 < n then
              .error "Hour must be a valid integer between 0 and 23"
            else .ok n := by
        unfold validate_hour
        rw [h1]
      rw [hred, if_neg (by omega)]
  · intro cfg outcome t
    have hp : parse_event (PyVal.dict [("date", .str "2024-01-15"), ("hour", .int 24)]) t
        = .error "Hour must be a valid integer between 0 and 23" := rfl
    rw [lambda_handler_error cfg outcome _ t _ hp]
    exact ⟨rfl, rfl⟩

/-! Claim C10: an explicit empty jobs list is a no-op success. -/

/-- C10 (confirmed): the event `{"jobs": []}` parses to the empty job list
(it does not fall back to the scheduled-run default), so the handler makes
no `process_city` attempts and still returns the 200 envelope reporting
0/0 successful city-hour combinations, with no truncation warning. -/
theorem empty_jobs_list_noop (cfg : Config) (outcome : String → PyVal → Int → Bool)
    (t : Nat) :
    parse_event (PyVal.dict [("jobs", PyVal.list [])]) t = .ok []
    ∧ lambda_handler cfg outcome (PyVal.dict [("jobs", PyVal.list [])]) t
      = { statusCode := 200,
          body := pyJsonDumps "Backfill completed. Total: 0/0 successful city-hour combinations",
          jobsRun := [], attempts := [], warned := false } := by
  refine ⟨rfl, ?_⟩
  have hp : parse_event (PyVal.dict [("jobs", PyVal.list [])]) t = .ok [] := rfl
  rw [lambda_handler_ok cfg outcome (PyVal.dict [("jobs", PyVal.list [])]) t [] hp]
  have htake : List.take cfg.maxBackfillEvents ([] : List (PyVal × Int)) = [] :=
    List.take_nil
  have hwarn : decide (cfg.maxBackfillEvents < ([] : List (PyVal × Int)).length) = false := by
    simp
  rw [htake, hwarn]
  have hmul : ([] : List (PyVal × Int)).length * cfg.cities.length = 0 := by
    simp
  rw [hmul]
  rfl

/-! Claim C7: one failing city out of N. -/

/-- C7 (confirmed): for a single explicit job over the configured cities,
if `process_city` fails for exactly one city, the handler still attempts
every city, returns the 200 success envelope, counts `N - 1` successes, and
its body reports `N - 1` successful out of `N` attempted city-hour
combinations — the per-city failure never propagates out of the handler. -/
theorem per_city_failure_isolated (cities : List String) (maxB : Nat)
    (outcome : String → PyVal → Int → Bool) (dv : PyVal) (hv : Int) (t : Nat)
    (hmax : 1 ≤ maxB) (h0 : 0 ≤ hv) (h23 : hv ≤ 23)
    (hfail : cities.countP (fun city => !(outcome city dv hv)) = 1) :
    (lambda_handler ⟨cities, maxB⟩ outcome
        (PyVal.dict [("date", dv), ("hour", .int hv)]) t).statusCode = 200
    ∧ (lambda_handler ⟨cities, maxB⟩ outcome
        (PyVal.dict [("date", dv), ("hour", .int hv)]) t).attempts.length = cities.length
    ∧ successCount outcome (lambda_handler ⟨cities, maxB⟩ outcome
        (PyVal.dict [("date", dv), ("hour", .int hv)]) t).attempts = cities.length - 1
    ∧ (lambda_handler ⟨cities, maxB⟩ outcome
        (PyVal.dict [("date", dv), ("hour", .int hv)]) t).body
      = pyJsonDumps ("Backfill completed. Total: "
          ++ String.mk (natDigits (cities.length - 1)) ++ "/"
          ++ String.mk (natDigits cities.length) ++ " successful city-hour combinations") := by
  have hval : validate_hour (.int hv) = .ok hv := by
    have hred : validate_hour (.int hv)
        = if hv < 0 ∨ 23 < hv then
            Except.error "Hour must be a valid integer between 0 and 23"
          else Except.ok hv := rfl
    rw [hred, if_neg (by omega)]
  have hp : parse_event (PyVal.dict [("date", dv), ("hour", .int hv)]) t
      = .ok [(dv, hv)] := by
    show (validate_hour (.int hv)).map (fun h => [(dv, h)]) = .ok [(dv, hv)]
    rw [hval]
    rfl
  have htake : List.take maxB [(dv, hv)] = [(dv, hv)] := by
    cases maxB with
    | zero => omega
    | succ k => rw [List.take_succ_cons, List.take_nil]
  have hatt : attemptsOf ⟨cities, maxB⟩ [(dv, hv)]
      = cities.map (fun city => (city, dv, hv)) := by
    unfold attemptsOf
    simp
  have hsucc : successCount outcome (cities.map (fun city => (city, dv, hv)))
      = cities.length - 1 := by
    unfold successCount
    rw [List.countP_map]
    simp only [Function.comp_def]
    have htot : cities.length = cities.countP (fun city => outcome city dv hv)
        + cities.countP (fun city => decide (¬ outcome city dv hv = true)) :=
      List.length_eq_countP_add_countP _ _
    have hcompl : cities.countP (fun city => decide (¬ outcome city dv hv = true)) = 1 := by
      have hfun : (fun city => decide (¬ outcome city dv hv = true))
          = (fun city => !(outcome city dv hv)) := by
        funext city
        simp
      rw [hfun]
      exact hfail
    omega
  rw [lambda_handler_ok ⟨cities, maxB⟩ outcome _ t [(dv, hv)] hp, htake, hatt]
  refine ⟨rfl, by simp, hsucc, ?_⟩
  show pyJsonDumps ("Backfill completed. Total: "
      ++ String.mk (natDigits (successCount outcome (cities.map (fun city => (city, dv, hv)))))
      ++ "/" ++ String.mk (natDigits ([(dv, hv)].length * cities.length))
      ++ " successful city-hour combinations") = _
  rw [hsucc]
  have hlen : [(dv, hv)].length * cities.length = cities.length := by
    simp
  rw [hlen]

/-- Witness for the C7 theorem: three cities, exactly `b` failing. -/
theorem per_city_failure_isolated_witness :
    (lambda_handler ⟨["a", "b", "c"], 24⟩ (fun city _ _ => city != "b")
        (PyVal.dict [("date", .str "2024-01-15"), ("hour", .int 10)]) 0).statusCode = 200
    ∧ successCount (fun city _ _ => city != "b")
        (lambda_handler ⟨["a", "b", "c"], 24⟩ (fun city _ _ => city != "b")
          (PyVal.dict [("date", .str "2024-01-15"), ("hour", .int 10)]) 0).attempts = 2 :=
  ⟨(per_city_failure_isolated ["a", "b", "c"] 24 (fun city _ _ => city != "b")
      (.str "2024-01-15") 10 0 (by decide) (by decide) (by decide) (by decide)).1,
   (per_city_failure_isolated ["a", "b", "c"] 24 (fun city _ _ => city != "b")
      (.str "2024-01-15") 10 0 (by decide) (by decide) (by decide) (by decide)).2.2.1⟩

end WeatherAnalytics
